import Mathlib

/-!
# Verification of the dashboard variable list editor

A shallow embedding of `VariablesEditView`
(`public/app/features/dashboard-scene/settings/VariablesEditView.tsx`,
bundled in the reviewed sources inside `fields.tsx`): an ordered collection
of named, typed dashboard variables with delete, duplicate (with unique-name
derivation), reorder, and begin-edit / change-type / go-back / discard
session semantics.

The collection is the `variables` array of the scene's variable set; the
edit session is the pair `editIndex` / `originalVariableState` of the view's
own state.  `setState` calls merge a partial state object into the current
state, which is modelled by structure update.  A `console.error` followed by
an early return is modelled by returning the unchanged state together with
an error report; all operations are total functions, so no failure is fatal.
-/

namespace VariablesEdit

/-- The variable kinds.  The editable kinds (`query`, `custom`, `constant`,
`interval`, `datasource`, `adhoc`, `textbox`) form the closed set accepted by
`isEditableVariableType`; `system` is the non-editable kind. -/
inductive VariableType where
  | query
  | custom
  | constant
  | interval
  | datasource
  | adhoc
  | textbox
  | system
deriving DecidableEq, Repr

/-- The state of one scene variable: its unique `name`, its optional display
`label`, its kind, and the kind-specific configuration payload.  The payload
is opaque to the collection logic, so it is modelled by a single `Nat`. -/
structure VariableState where
  name : String
  label : Option String
  type : VariableType
  config : Nat
deriving DecidableEq, Repr

instance : Inhabited VariableState :=
  ⟨{ name := "", label := none, type := .query, config := 0 }⟩

/-- Modelled from the spec: the default kind-specific configuration used when
a brand-new variable of a kind is constructed without an explicit payload
(the kind's constructor defaults; `getVariableScene` lives outside the
reviewed sources). -/
def defaultConfig : VariableType → Nat := fun _ => 0

/-- Modelled from the spec: `isEditableVariableType` (from
`dashboard-scene/settings/variables/utils`, outside the reviewed sources)
tests membership in the fixed closed set of editable variable kinds. -/
def isEditableVariableType : VariableType → Bool
  | .system => false
  | _ => true

/-- A partial initial state handed to a variable constructor: fields that are
present override the kind's defaults. -/
structure InitialVariableState where
  name : String
  label : Option String
  config : Option Nat
deriving DecidableEq, Repr

/-- The result type of `getVariableScene`: either an ordinary scene variable
or the structurally distinct `AdHocFilterSet`. -/
inductive SceneVariableOrAdHoc where
  | scene (v : VariableState)
  | adHocFilterSet
deriving DecidableEq, Repr

/-- Modelled from the spec: `getVariableScene` (from
`dashboard-scene/settings/variables/utils`, outside the reviewed sources)
constructs a brand-new variable of the given kind from the given initial
state, absent fields taking the kind's defaults; for the ad-hoc filter kind
it instead yields the structurally distinct `AdHocFilterSet`. -/
def getVariableScene (t : VariableType) (init : InitialVariableState) :
    SceneVariableOrAdHoc :=
  if t = .adhoc then .adHocFilterSet
  else .scene
    { name := init.name
      label := init.label
      type := t
      config := init.config.getD (defaultConfig t) }

/-- The state owned by `VariablesEditView`: the variable set's ordered
`variables` array together with the edit-session fields `editIndex` and
`originalVariableState` (both optional, as in
`VariablesEditViewState`). -/
structure VariablesEditView where
  variableList : List VariableState
  editIndex : Option Nat
  originalVariableState : Option VariableState
deriving DecidableEq, Repr

/-- A reported, non-fatal condition (a `console.error` in the source). -/
inductive EditorReport where
  | variableNotFound
  | invalidIndex
deriving DecidableEq, Repr

/-- `getVariableIndex`: `variables.findIndex(v => v.state.name === identifier)`;
the TypeScript `-1` result is modelled by `none`. -/
def getVariableIndex (s : VariablesEditView) (identifier : String) :
    Option Nat :=
  s.variableList.findIdx? (fun v => v.name = identifier)

/-- `onDelete`: look the identifier up by name; if absent, report
"Variable not found" and leave the state unchanged; otherwise rebuild the
array as `[...slice(0, i), ...slice(i + 1)]`. -/
def onDelete (s : VariablesEditView) (identifier : String) :
    VariablesEditView × Option EditorReport :=
  match getVariableIndex s identifier with
  | none => (s, some .variableNotFound)
  | some variableIndex =>
      ({ s with
          variableList :=
            s.variableList.take variableIndex ++
              s.variableList.drop (variableIndex + 1) },
        none)

/-- The candidate names tried by `onDuplicated`'s naming loop:
`copy_of_<base>` first, then `copy_of_<base>_<n>` for `n = 1, 2, ...`
(TypeScript template literals; `Nat.repr` is the decimal rendering). -/
def copyName (base : String) : Nat → String
  | 0 => "copy_of_" ++ base
  | n + 1 => "copy_of_" ++ base ++ "_" ++ Nat.repr (n + 1)

/-- The `while (variables.some(v => v.state.name === newName))` loop of
`onDuplicated`, with explicit fuel.  The source loop is unbounded;
`variables.length + 1` units of fuel provably suffice because the candidate
names are pairwise distinct and the collection holds only
`variables.length` names. -/
def uniqueCopyNameLoop (variableList : List VariableState) (base : String) :
    Nat → Nat → String
  | 0, n => copyName base n
  | fuel + 1, n =>
      if variableList.any (fun v => v.name = copyName base n) then
        uniqueCopyNameLoop variableList base fuel (n + 1)
      else copyName base n

/-- The name derived for a duplicate of a variable named `base`. -/
def uniqueCopyName (variableList : List VariableState) (base : String) :
    String :=
  uniqueCopyNameLoop variableList base (variableList.length + 1) 0

/-- `onDuplicated`: look the identifier up by name ("Variable not found" is
reported and nothing changes when absent); clone the original's full state,
rename the clone to the first unused candidate name, and insert it
immediately after the original:
`[...slice(0, i + 1), newVariable, ...slice(i + 1)]`. -/
def onDuplicated (s : VariablesEditView) (identifier : String) :
    VariablesEditView × Option EditorReport :=
  match getVariableIndex s identifier with
  | none => (s, some .variableNotFound)
  | some variableIndex =>
      let originalVariable := s.variableList.getD variableIndex default
      let newName := uniqueCopyName s.variableList originalVariable.name
      let newVariable := { originalVariable with name := newName }
      ({ s with
          variableList :=
            s.variableList.take (variableIndex + 1) ++
              newVariable :: s.variableList.drop (variableIndex + 1) },
        none)

/-- `onOrderChanged`: indices arrive as (possibly negative) JavaScript
numbers; out-of-range indices report "Invalid index" and nothing changes.
On success the element is removed at `fromIndex` and spliced back in at
`toIndex` of the shortened array
(`splice(fromIndex, 1)` then `splice(toIndex, 0, movedItem[0])`). -/
def onOrderChanged (s : VariablesEditView) (fromIndex toIndex : Int) :
    VariablesEditView × Option EditorReport :=
  if fromIndex < 0 ∨ (s.variableList.length : Int) ≤ fromIndex ∨
      toIndex < 0 ∨ (s.variableList.length : Int) ≤ toIndex then
    (s, some .invalidIndex)
  else
    let movedItem := s.variableList.getD fromIndex.toNat default
    ({ s with
        variableList :=
          (s.variableList.eraseIdx fromIndex.toNat).insertIdx
            toIndex.toNat movedItem },
      none)

/-- `onEdit`: look the identifier up by name ("Variable not found" is
reported and nothing changes when absent); on success store the index and a
copy of the variable's state in the session fields. -/
def onEdit (s : VariablesEditView) (identifier : String) :
    VariablesEditView × Option EditorReport :=
  match getVariableIndex s identifier with
  | none => (s, some .variableNotFound)
  | some variableIndex =>
      ({ s with
          editIndex := some variableIndex
          originalVariableState :=
            some (s.variableList.getD variableIndex default) },
        none)

/-- `replaceEditVariable`: `editIndex ?? -1` indexes the variables array;
when no variable is there, "Variable not found" is reported and nothing
changes.  An `AdHocFilterSet` is not spliced into the collection (the
source's TODO branch); any other new variable replaces the entry at
`editIndex` in place. -/
def replaceEditVariable (s : VariablesEditView)
    (newVariable : SceneVariableOrAdHoc) :
    VariablesEditView × Option EditorReport :=
  match s.editIndex with
  | none => (s, some .variableNotFound)
  | some variableIndex =>
      if variableIndex < s.variableList.length then
        match newVariable with
        | .adHocFilterSet => (s, none)
        | .scene v =>
            ({ s with
                variableList :=
                  s.variableList.take variableIndex ++
                    v :: s.variableList.drop (variableIndex + 1) },
              none)
      else (s, some .variableNotFound)

/-- `onTypeChange`: read the variable at `editIndex` ("Variable not found"
is reported and nothing changes when there is none), build a brand-new
variable of the requested kind from only its `name` and `label`, and hand it
to `replaceEditVariable`. -/
def onTypeChange (s : VariablesEditView) (type : VariableType) :
    VariablesEditView × Option EditorReport :=
  match s.editIndex with
  | none => (s, some .variableNotFound)
  | some variableIndex =>
      if variableIndex < s.variableList.length then
        let v := s.variableList.getD variableIndex default
        let newVariable := getVariableScene type
          { name := v.name, label := v.label, config := none }
        replaceEditVariable s newVariable
      else (s, some .variableNotFound)

/-- `onGoBack`: `setState({ editIndex: undefined })` — the partial-state
merge clears only `editIndex`, leaving `originalVariableState` in place. -/
def onGoBack (s : VariablesEditView) : VariablesEditView :=
  { s with editIndex := none }

/-- `onDiscardChanges`: silently return when `editIndex` or
`originalVariableState` is unset or no variable sits at `editIndex`;
otherwise, when the snapshot's kind is editable, rebuild a variable from the
snapshot and splice it in at `editIndex` (unless it is an `AdHocFilterSet`,
the source's TODO branch), and finally clear both session fields. -/
def onDiscardChanges (s : VariablesEditView) : VariablesEditView :=
  match s.editIndex, s.originalVariableState with
  | some editIndex, some originalVariableState =>
      if editIndex < s.variableList.length then
        let s' :=
          if isEditableVariableType originalVariableState.type then
            match getVariableScene originalVariableState.type
                { name := originalVariableState.name
                  label := originalVariableState.label
                  config := some originalVariableState.config } with
            | .adHocFilterSet => s
            | .scene newVariable =>
                { s with
                    variableList :=
                      s.variableList.take editIndex ++
                        newVariable :: s.variableList.drop (editIndex + 1) }
          else s
        { s' with editIndex := none, originalVariableState := none }
      else s
  | _, _ => s

/-! ### Auxiliary definitions for the proofs -/

/-- The numeric value of a decimal digit character. -/
def digitVal (c : Char) : Nat := c.toNat - '0'.toNat

/-- The number denoted by a list of decimal digit characters, most
significant digit first. -/
def ofDigitChars (l : List Char) : Nat :=
  l.foldl (fun acc c => 10 * acc + digitVal c) 0

/-- A variable with no label, used to build concrete collections. -/
def plainVar (nm : String) (t : VariableType) (c : Nat) : VariableState :=
  { name := nm, label := none, type := t, config := c }

/-- A two-variable collection with no active session (the spec's example
collection). -/
def sampleView : VariablesEditView :=
  { variableList :=
      [plainVar "query0" .query 7, plainVar "custom1" .custom 8]
    editIndex := none
    originalVariableState := none }

/-- A collection already holding `foo` and `copy_of_foo`. -/
def fooView : VariablesEditView :=
  { variableList :=
      [plainVar "foo" .query 1, plainVar "copy_of_foo" .query 2]
    editIndex := none
    originalVariableState := none }

/-- A collection holding `foo`, `copy_of_foo` and `copy_of_foo_1`. -/
def fooView1 : VariablesEditView :=
  { variableList :=
      [plainVar "foo" .query 1, plainVar "copy_of_foo" .query 2,
        plainVar "copy_of_foo_1" .query 3]
    editIndex := none
    originalVariableState := none }

/-- The sample collection with an edit session open on its first variable. -/
def sessionView : VariablesEditView :=
  { variableList :=
      [plainVar "query0" .query 7, plainVar "custom1" .custom 8]
    editIndex := some 0
    originalVariableState := some (plainVar "query0" .query 7) }

/-! ### List splicing lemmas -/

theorem take_append_getElem_drop {α : Type _} (l : List α) (i : Nat)
    (h : i < l.length) : l.take i ++ l[i] :: l.drop (i + 1) = l := by
  conv_rhs => rw [← List.take_append_drop i l, List.drop_eq_getElem_cons h]

theorem perm_getElem_cons_eraseIdx {α : Type _} (l : List α) (i : Nat)
    (h : i < l.length) : l.Perm (l[i] :: l.eraseIdx i) := by
  induction l generalizing i with
  | nil => simp at h
  | cons a t ih =>
    cases i with
    | zero => simp [List.eraseIdx]
    | succ n =>
      have h' : n < t.length := by simpa using h
      have step : (a :: t).Perm (a :: (t[n] :: t.eraseIdx n)) :=
        (ih n h').cons a
      refine step.trans ?_
      simpa [List.eraseIdx] using List.Perm.swap t[n] a (t.eraseIdx n)

theorem insertIdx_getElem_eraseIdx {α : Type _} (l : List α) (i : Nat)
    (h : i < l.length) : (l.eraseIdx i).insertIdx i l[i] = l := by
  induction l generalizing i with
  | nil => simp at h
  | cons a t ih =>
    cases i with
    | zero => simp [List.eraseIdx]
    | succ n =>
      have h' : n < t.length := by simpa using h
      simp [List.eraseIdx, List.insertIdx_succ_cons, ih n h']

/-! ### Decimal rendering: `Nat.repr` is injective -/

theorem digitVal_digitChar {d : Nat} (h : d < 10) :
    digitVal (Nat.digitChar d) = d := by
  interval_cases d <;> decide

theorem ofDigitChars_append (l : List Char) (c : Char) :
    ofDigitChars (l ++ [c]) = 10 * ofDigitChars l + digitVal c := by
  simp [ofDigitChars, List.foldl_append]

theorem toDigitsCore_eq_append (b : Nat) :
    ∀ (fuel n : Nat) (ds : List Char),
      Nat.toDigitsCore b fuel n ds = Nat.toDigitsCore b fuel n [] ++ ds := by
  intro fuel
  induction fuel with
  | zero => intro n ds; simp [Nat.toDigitsCore]
  | succ f ih =>
    intro n ds
    simp only [Nat.toDigitsCore]
    by_cases h : n / b = 0
    · simp [h]
    · simp only [h, if_false]
      rw [ih (n / b) [Nat.digitChar (n % b)], ih (n / b) (Nat.digitChar (n % b) :: ds),
        List.append_assoc]
      rfl

theorem ofDigitChars_toDigitsCore :
    ∀ (fuel n : Nat), n < fuel →
      ofDigitChars (Nat.toDigitsCore 10 fuel n []) = n := by
  intro fuel
  induction fuel with
  | zero => intro n hn; omega
  | succ f ih =>
    intro n hn
    simp only [Nat.toDigitsCore]
    by_cases h : n / 10 = 0
    · have hlt : n < 10 := by omega
      simp [h, ofDigitChars, Nat.mod_eq_of_lt hlt, digitVal_digitChar hlt]
    · have hpos : 0 < n := by
        rcases Nat.eq_zero_or_pos n with h0 | h0
        · exact absurd (by simp [h0]) h
        · exact h0
      have hrec : n / 10 < f := by
        have h1 : n / 10 < n := Nat.div_lt_self hpos (by norm_num)
        omega
      simp only [h, if_false]
      rw [toDigitsCore_eq_append, ofDigitChars_append, ih (n / 10) hrec,
        digitVal_digitChar (Nat.mod_lt n (by norm_num))]
      omega

theorem ofDigitChars_repr (n : Nat) : ofDigitChars (Nat.repr n).data = n := by
  have : (Nat.repr n).data = Nat.toDigitsCore 10 (n + 1) n [] := rfl
  rw [this]
  exact ofDigitChars_toDigitsCore (n + 1) n (Nat.lt_succ_self n)

theorem repr_injective : Function.Injective Nat.repr := by
  intro m n h
  have h2 := congrArg (fun s => ofDigitChars s.data) h
  simpa [ofDigitChars_repr] using h2

/-! ### The candidate names of the duplication loop are pairwise distinct -/

theorem copyName_injective (base : String) :
    Function.Injective (copyName base) := by
  intro m n h
  have h1 : ("_" : String).length = 1 := rfl
  cases m with
  | zero =>
    cases n with
    | zero => rfl
    | succ k =>
      exfalso
      have hl := congrArg String.length h
      simp only [copyName, String.length_append] at hl
      omega
  | succ j =>
    cases n with
    | zero =>
      exfalso
      have hl := congrArg String.length h
      simp only [copyName, String.length_append] at hl
      omega
    | succ k =>
      have hd := congrArg String.data h
      simp only [copyName, String.data_append] at hd
      have hr : (Nat.repr (j + 1)).data = (Nat.repr (k + 1)).data :=
        List.append_inj_right hd rfl
      have hv := congrArg ofDigitChars hr
      rw [ofDigitChars_repr, ofDigitChars_repr] at hv
      omega

theorem exists_copyName_unused (vs : List VariableState) (base : String) :
    ∃ k, k < vs.length + 1 ∧ ∀ v ∈ vs, v.name ≠ copyName base k := by
  by_contra hc
  push_neg at hc
  have hsub : (List.range (vs.length + 1)).map (copyName base) ⊆
      vs.map VariableState.name := by
    intro x hx
    simp only [List.mem_map, List.mem_range] at hx
    obtain ⟨k, hk, rfl⟩ := hx
    obtain ⟨v, hv, hname⟩ := hc k hk
    exact List.mem_map.mpr ⟨v, hv, hname⟩
  have hnd : ((List.range (vs.length + 1)).map (copyName base)).Nodup :=
    (List.nodup_range _).map (copyName_injective base)
  have hle := (List.subperm_of_subset hnd hsub).length_le
  simp only [List.length_map, List.length_range] at hle
  omega

/-! ### The naming loop returns an unused name -/

theorem uniqueCopyNameLoop_unused (vs : List VariableState) (base : String) :
    ∀ (fuel start : Nat),
      (∃ k, k < fuel ∧ ∀ v ∈ vs, v.name ≠ copyName base (start + k)) →
      ∀ v ∈ vs, v.name ≠ uniqueCopyNameLoop vs base fuel start := by
  intro fuel
  induction fuel with
  | zero =>
    rintro start ⟨k, hk, -⟩
    omega
  | succ f ih =>
    rintro start ⟨k, hk, hfree⟩
    simp only [uniqueCopyNameLoop]
    by_cases hused : vs.any (fun v => v.name = copyName base start)
    · rw [if_pos hused]
      obtain ⟨w, hw, hwname⟩ := List.any_eq_true.mp hused
      have hk0 : k ≠ 0 := by
        intro h0
        exact absurd (of_decide_eq_true hwname)
          (by simpa [h0] using hfree w hw)
      obtain ⟨k', rfl⟩ : ∃ k', k = k' + 1 := ⟨k - 1, by omega⟩
      refine ih (start + 1) ⟨k', by omega, ?_⟩
      intro v hv
      have harg : start + 1 + k' = start + (k' + 1) := by omega
      rw [harg]
      exact hfree v hv
    · rw [if_neg hused]
      intro v hv heq
      exact hused (List.any_eq_true.mpr ⟨v, hv, decide_eq_true heq⟩)

theorem uniqueCopyName_unused (vs : List VariableState) (base : String) :
    ∀ v ∈ vs, v.name ≠ uniqueCopyName vs base := by
  obtain ⟨k, hk, hfree⟩ := exists_copyName_unused vs base
  exact uniqueCopyNameLoop_unused vs base (vs.length + 1) 0
    ⟨k, hk, by simpa using hfree⟩

/-! ### Facts about name lookup -/

theorem getVariableIndex_eq_some_of_mem
    {s : VariablesEditView} {n : String}
    (hmem : n ∈ s.variableList.map VariableState.name) :
    ∃ i, getVariableIndex s n = some i := by
  rcases h : getVariableIndex s n with _ | i
  · exfalso
    rw [getVariableIndex, List.findIdx?_eq_none_iff] at h
    obtain ⟨v, hv, hvn⟩ := List.mem_map.mp hmem
    have := h v hv
    simp [hvn] at this
  · exact ⟨i, rfl⟩

theorem getVariableIndex_lt {s : VariablesEditView} {n : String} {i : Nat}
    (h : getVariableIndex s n = some i) : i < s.variableList.length := by
  rw [getVariableIndex, List.findIdx?_eq_some_iff_getElem] at h
  obtain ⟨hi, -⟩ := h
  exact hi

theorem getVariableIndex_name {s : VariablesEditView} {n : String} {i : Nat}
    (h : getVariableIndex s n = some i) (hi : i < s.variableList.length) :
    (s.variableList[i]).name = n := by
  rw [getVariableIndex, List.findIdx?_eq_some_iff_getElem] at h
  obtain ⟨hi', hp, -⟩ := h
  exact of_decide_eq_true hp

theorem getVariableIndex_eq_none_of_not_mem
    {s : VariablesEditView} {n : String}
    (hn : n ∉ s.variableList.map VariableState.name) :
    getVariableIndex s n = none := by
  rw [getVariableIndex, List.findIdx?_eq_none_iff]
  intro v hv
  rw [decide_eq_false_iff_not]
  intro hveq
  exact hn (List.mem_map.mpr ⟨v, hv, hveq⟩)

/-! ### The claims -/

/-- C1: for every collection with unique names and every name `n` present
in it, `onDelete n` yields a collection one shorter, containing no variable
named `n`, and the remaining variables keep their relative order (the result
is a sublist of the original collection). -/
theorem onDelete_removes_named_variable (s : VariablesEditView) (n : String)
    (hmem : n ∈ s.variableList.map VariableState.name)
    (huniq : (s.variableList.map VariableState.name).Nodup) :
    (onDelete s n).1.variableList.length = s.variableList.length - 1 ∧
      (∀ v ∈ (onDelete s n).1.variableList, v.name ≠ n) ∧
      (onDelete s n).1.variableList.Sublist s.variableList := by
  obtain ⟨i, hfind⟩ := getVariableIndex_eq_some_of_mem hmem
  have hi := getVariableIndex_lt hfind
  have hname := getVariableIndex_name hfind hi
  have hres : (onDelete s n).1.variableList = s.variableList.eraseIdx i := by
    simp only [onDelete, hfind]
    rw [List.eraseIdx_eq_take_drop_succ]
  rw [hres]
  refine ⟨?_, ?_, List.eraseIdx_sublist _ _⟩
  · rw [List.length_eraseIdx_of_lt hi]
  · intro v hv hvn
    rw [List.mem_eraseIdx_iff_getElem] at hv
    obtain ⟨j, hj, hji, hgv⟩ := hv
    have hj' : j < (s.variableList.map VariableState.name).length := by
      simpa using hj
    have hi' : i < (s.variableList.map VariableState.name).length := by
      simpa using hi
    have heq : (s.variableList.map VariableState.name).get ⟨j, hj'⟩ =
        (s.variableList.map VariableState.name).get ⟨i, hi'⟩ := by
      simp only [List.get_eq_getElem, List.getElem_map]
      rw [hgv, hvn, hname]
    have := huniq.get_inj_iff.mp heq
    exact hji (by simpa using this)

/-- Witness for C1 at the sample collection. -/
theorem onDelete_removes_named_variable_witness :
    (onDelete sampleView "query0").1.variableList.length =
        sampleView.variableList.length - 1 ∧
      (∀ v ∈ (onDelete sampleView "query0").1.variableList,
        v.name ≠ "query0") ∧
      (onDelete sampleView "query0").1.variableList.Sublist
        sampleView.variableList :=
  onDelete_removes_named_variable sampleView "query0" (by decide) (by decide)

/-- C2: a delete, duplicate, or begin-edit referencing a name absent from
the collection, or a reorder given an out-of-range index, returns the state
unchanged together with the corresponding non-fatal report (`console.error`
in the source); no partial mutation occurs and, the operations being total
functions, no fatal fault is raised. -/
theorem failing_ops_leave_state_unchanged (s : VariablesEditView)
    (n : String) (i j : Int)
    (hn : n ∉ s.variableList.map VariableState.name)
    (hij : i < 0 ∨ (s.variableList.length : Int) ≤ i ∨ j < 0 ∨
      (s.variableList.length : Int) ≤ j) :
    onDelete s n = (s, some .variableNotFound) ∧
      onDuplicated s n = (s, some .variableNotFound) ∧
      onEdit s n = (s, some .variableNotFound) ∧
      onOrderChanged s i j = (s, some .invalidIndex) := by
  have hfind := getVariableIndex_eq_none_of_not_mem hn
  refine ⟨?_, ?_, ?_, ?_⟩
  · simp [onDelete, hfind]
  · simp [onDuplicated, hfind]
  · simp [onEdit, hfind]
  · rw [onOrderChanged, if_pos hij]

/-- Witness for C2 at the sample collection. -/
theorem failing_ops_leave_state_unchanged_witness :
    onDelete sampleView "nope" = (sampleView, some .variableNotFound) ∧
      onDuplicated sampleView "nope" = (sampleView, some .variableNotFound) ∧
      onEdit sampleView "nope" = (sampleView, some .variableNotFound) ∧
      onOrderChanged sampleView (-1) 0 =
        (sampleView, some .invalidIndex) :=
  failing_ops_leave_state_unchanged sampleView "nope" (-1) 0
    (by decide) (by decide)

/-- C3: duplicating a variable named `n` (found at index `i`) yields a
collection one longer; the clone equals the original in label, kind and
configuration and differs only in its name; the clone's name differs from
every pre-existing name; the clone sits immediately after the original,
every other variable keeping its position. -/
theorem onDuplicated_inserts_fresh_clone (s : VariablesEditView)
    (n : String) (i : Nat) (hfind : getVariableIndex s n = some i) :
    (s.variableList.getD i default).name = n ∧
      (onDuplicated s n).1.variableList.length =
        s.variableList.length + 1 ∧
      (∀ m ∈ s.variableList.map VariableState.name,
        uniqueCopyName s.variableList n ≠ m) ∧
      (onDuplicated s n).1.variableList =
        s.variableList.take (i + 1) ++
          { s.variableList.getD i default with
              name := uniqueCopyName s.variableList n } ::
          s.variableList.drop (i + 1) := by
  have hi := getVariableIndex_lt hfind
  have hgetD : s.variableList.getD i default = s.variableList[i] :=
    List.getD_eq_getElem s.variableList default hi
  have hname : (s.variableList.getD i default).name = n := by
    rw [hgetD]; exact getVariableIndex_name hfind hi
  have hres : (onDuplicated s n).1.variableList =
      s.variableList.take (i + 1) ++
        { s.variableList.getD i default with
            name := uniqueCopyName s.variableList n } ::
        s.variableList.drop (i + 1) := by
    simp only [onDuplicated, hfind, hname]
  refine ⟨hname, ?_, ?_, hres⟩
  · rw [hres]
    simp only [List.length_append, List.length_take, List.length_cons,
      List.length_drop]
    omega
  · intro m hm heq
    obtain ⟨v, hv, rfl⟩ := List.mem_map.mp hm
    exact uniqueCopyName_unused s.variableList n v hv heq.symm

/-- Witness for C3 at the sample collection. -/
theorem onDuplicated_inserts_fresh_clone_witness :
    (sampleView.variableList.getD 0 default).name = "query0" ∧
      (onDuplicated sampleView "query0").1.variableList.length =
        sampleView.variableList.length + 1 ∧
      (∀ m ∈ sampleView.variableList.map VariableState.name,
        uniqueCopyName sampleView.variableList "query0" ≠ m) ∧
      (onDuplicated sampleView "query0").1.variableList =
        sampleView.variableList.take 1 ++
          { sampleView.variableList.getD 0 default with
              name := uniqueCopyName sampleView.variableList "query0" } ::
          sampleView.variableList.drop 1 :=
  onDuplicated_inserts_fresh_clone sampleView "query0" 0 (by decide)

/-- C4 counterexample: in a collection already holding `foo`,
`copy_of_foo` and `copy_of_foo_1`, duplicating `foo` names the clone
`copy_of_foo_2`, not `copy_of_foo_1` — so the claim's "for any collection
containing `foo` and `copy_of_foo`" is too broad. -/
theorem onDuplicated_copy_of_copy_counterexample :
    "foo" ∈ fooView1.variableList.map VariableState.name ∧
      "copy_of_foo" ∈ fooView1.variableList.map VariableState.name ∧
      (onDuplicated fooView1 "foo").1.variableList.map VariableState.name =
        ["foo", "copy_of_foo_2", "copy_of_foo", "copy_of_foo_1"] ∧
      uniqueCopyName fooView1.variableList "foo" ≠ "copy_of_foo_1" := by
  decide

/-- C4 amended: the clone's name starts from `copy_of_<original>` and
appends `_<n>` for increasing `n` until unused; in particular, duplicating
`foo` in a collection containing `copy_of_foo` but no `copy_of_foo_1` names
the clone `copy_of_foo_1`. -/
theorem onDuplicated_copy_of_copy (s : VariablesEditView) (i : Nat)
    (hfind : getVariableIndex s "foo" = some i)
    (h1 : "copy_of_foo" ∈ s.variableList.map VariableState.name)
    (h2 : "copy_of_foo_1" ∉ s.variableList.map VariableState.name) :
    uniqueCopyName s.variableList "foo" = "copy_of_foo_1" ∧
      (onDuplicated s "foo").1.variableList =
        s.variableList.take (i + 1) ++
          { s.variableList.getD i default with name := "copy_of_foo_1" } ::
          s.variableList.drop (i + 1) := by
  have hi := getVariableIndex_lt hfind
  have hc0 : copyName "foo" 0 = "copy_of_foo" := by decide
  have hc1 : copyName "foo" 1 = "copy_of_foo_1" := by decide
  obtain ⟨m, hm⟩ : ∃ m, s.variableList.length = m + 1 :=
    ⟨s.variableList.length - 1, by omega⟩
  have hun : uniqueCopyName s.variableList "foo" = "copy_of_foo_1" := by
    obtain ⟨v, hv, hvn⟩ := List.mem_map.mp h1
    have hany0 : s.variableList.any
        (fun v => v.name = copyName "foo" 0) = true :=
      List.any_eq_true.mpr ⟨v, hv, decide_eq_true (by rw [hvn, hc0])⟩
    have hany1 : ¬ s.variableList.any
        (fun v => v.name = copyName "foo" 1) = true := by
      intro hany
      obtain ⟨w, hw, hwn⟩ := List.any_eq_true.mp hany
      exact h2 (List.mem_map.mpr
        ⟨w, hw, (of_decide_eq_true hwn).trans hc1⟩)
    rw [uniqueCopyName, hm]
    show uniqueCopyNameLoop s.variableList "foo" (m + 2) 0 = _
    rw [uniqueCopyNameLoop, if_pos hany0]
    cases m with
    | zero =>
      rw [uniqueCopyNameLoop, if_neg hany1]
      exact hc1
    | succ m' =>
      rw [uniqueCopyNameLoop, if_neg hany1]
      exact hc1
  have hname := getVariableIndex_name hfind hi
  have hgetD : s.variableList.getD i default = s.variableList[i] :=
    List.getD_eq_getElem s.variableList default hi
  refine ⟨hun, ?_⟩
  simp only [onDuplicated, hfind, hgetD, hname, hun]

/-- Witness for C4 (amended) at the two-variable `foo` collection. -/
theorem onDuplicated_copy_of_copy_witness :
    uniqueCopyName fooView.variableList "foo" = "copy_of_foo_1" ∧
      (onDuplicated fooView "foo").1.variableList =
        fooView.variableList.take 1 ++
          { fooView.variableList.getD 0 default with
              name := "copy_of_foo_1" } ::
          fooView.variableList.drop 1 :=
  onDuplicated_copy_of_copy fooView 0 (by decide) (by decide) (by decide)

/-- C5: for indices inside `[0, len)`, `onOrderChanged i j` computes
exactly the splice "remove at `i`, reinsert at `j` of the shortened
sequence"; the result is a permutation of the original collection; and
`onOrderChanged i i` is the identity. -/
theorem onOrderChanged_is_splice_perm (s : VariablesEditView) (i j : Nat)
    (hi : i < s.variableList.length) (hj : j < s.variableList.length) :
    (onOrderChanged s i j).1.variableList =
        (s.variableList.eraseIdx i).insertIdx j
          (s.variableList.getD i default) ∧
      (onOrderChanged s i j).1.variableList.Perm s.variableList ∧
      (onOrderChanged s i i).1 = s := by
  have hcond : ¬((i : Int) < 0 ∨
      (s.variableList.length : Int) ≤ (i : Int) ∨ (j : Int) < 0 ∨
      (s.variableList.length : Int) ≤ (j : Int)) := by omega
  have hcond' : ¬((i : Int) < 0 ∨
      (s.variableList.length : Int) ≤ (i : Int) ∨ (i : Int) < 0 ∨
      (s.variableList.length : Int) ≤ (i : Int)) := by omega
  have hgetD : s.variableList.getD i default = s.variableList[i] :=
    List.getD_eq_getElem s.variableList default hi
  have hres : (onOrderChanged s i j).1.variableList =
      (s.variableList.eraseIdx i).insertIdx j
        (s.variableList.getD i default) := by
    simp only [onOrderChanged, if_neg hcond, Int.toNat_natCast]
  refine ⟨hres, ?_, ?_⟩
  · rw [hres, hgetD]
    have hlen : j ≤ (s.variableList.eraseIdx i).length := by
      rw [List.length_eraseIdx_of_lt hi]; omega
    exact (List.perm_insertIdx (s.variableList[i])
      (s.variableList.eraseIdx i) hlen).trans
      (perm_getElem_cons_eraseIdx s.variableList i hi).symm
  · have hid : (s.variableList.eraseIdx i).insertIdx i
        (s.variableList.getD i default) = s.variableList := by
      rw [hgetD]; exact insertIdx_getElem_eraseIdx s.variableList i hi
    simp only [onOrderChanged, if_neg hcond', Int.toNat_natCast, hid]

/-- Witness for C5 at the sample collection. -/
theorem onOrderChanged_is_splice_perm_witness :
    (onOrderChanged sampleView 0 1).1.variableList =
        (sampleView.variableList.eraseIdx 0).insertIdx 1
          (sampleView.variableList.getD 0 default) ∧
      (onOrderChanged sampleView 0 1).1.variableList.Perm
        sampleView.variableList ∧
      (onOrderChanged sampleView 0 0).1 = sampleView :=
  onOrderChanged_is_splice_perm sampleView 0 1 (by decide) (by decide)

/-- C6: with an edit session active at `editIndex = k`, changing the
type to a non-ad-hoc kind replaces the variable at `k`, in place, by a
brand-new variable of that kind carrying over exactly the old variable's
name and label, with the configuration reset to the kind's defaults. -/
theorem onTypeChange_replaces_in_place (s : VariablesEditView)
    (t : VariableType) (k : Nat) (hk : s.editIndex = some k)
    (hlen : k < s.variableList.length) (ht : t ≠ .adhoc) :
    (onTypeChange s t).1.variableList =
      s.variableList.take k ++
        ({ name := (s.variableList.getD k default).name
           label := (s.variableList.getD k default).label
           type := t
           config := defaultConfig t } : VariableState) ::
        s.variableList.drop (k + 1) := by
  simp only [onTypeChange, hk, if_pos hlen, getVariableScene, if_neg ht,
    replaceEditVariable, Option.getD_none]

/-- Witness for C6: changing the sample session's `query` variable to
`textbox` keeps its name and label and resets the configuration. -/
theorem onTypeChange_replaces_in_place_witness :
    (onTypeChange sessionView .textbox).1.variableList =
      sessionView.variableList.take 0 ++
        ({ name := (sessionView.variableList.getD 0 default).name
           label := (sessionView.variableList.getD 0 default).label
           type := .textbox
           config := defaultConfig .textbox } : VariableState) ::
        sessionView.variableList.drop 1 :=
  onTypeChange_replaces_in_place sessionView .textbox 0 rfl
    (by decide) (by decide)

/-- C7: `onEdit n` (with `n` present and its variable's kind editable)
followed immediately by `onDiscardChanges` restores the collection to its
pre-edit state. -/
theorem beginEdit_discard_roundtrip (s : VariablesEditView) (n : String)
    (i : Nat) (hfind : getVariableIndex s n = some i)
    (hed : isEditableVariableType
      (s.variableList.getD i default).type = true) :
    (onDiscardChanges (onEdit s n).1).variableList = s.variableList := by
  have hi := getVariableIndex_lt hfind
  have hgetD : s.variableList.getD i default = s.variableList[i] :=
    List.getD_eq_getElem s.variableList default hi
  have hsplice := take_append_getElem_drop s.variableList i hi
  by_cases hadhoc : (s.variableList.getD i default).type = .adhoc
  · simp only [onEdit, hfind, onDiscardChanges, if_pos hi,
      getVariableScene, if_pos hadhoc, hed, if_true]
  · simp only [onEdit, hfind, onDiscardChanges, if_pos hi,
      getVariableScene, if_neg hadhoc, hed, if_true, Option.getD_some]
    rw [hgetD]
    exact hsplice

/-- Witness for C7 at the sample collection. -/
theorem beginEdit_discard_roundtrip_witness :
    (onDiscardChanges (onEdit sampleView "query0").1).variableList =
      sampleView.variableList :=
  beginEdit_discard_roundtrip sampleView "query0" 0 (by decide) (by decide)

/-- C8: changing the type to the structurally distinct ad-hoc filter
kind performs no collection-level replacement: the whole state, collection
included, is left unchanged (for every state, session active or not). -/
theorem onTypeChange_adhoc_is_noop (s : VariablesEditView) :
    (onTypeChange s .adhoc).1 = s := by
  rcases h : s.editIndex with _ | k
  · simp [onTypeChange, h]
  · by_cases hlen : k < s.variableList.length
    · simp [onTypeChange, h, hlen, getVariableScene, replaceEditVariable]
    · simp [onTypeChange, h, hlen]

/-- C9 counterexample: `onGoBack` clears only `editIndex`, so a state
reached by `onEdit` then `onGoBack` still carries a snapshot; calling
`onDiscardChanges` there returns early and does _not_ clear the snapshot —
refuting "after every call to discard the edit-session state is cleared". -/
theorem onDiscardChanges_keeps_stale_snapshot :
    (onDiscardChanges
        (onGoBack (onEdit sampleView "query0").1)).originalVariableState =
      some (plainVar "query0" .query 7) ∧
    (onDiscardChanges
        (onGoBack (onEdit sampleView "query0").1)).originalVariableState ≠
      none := by
  decide

/-- C9 amended: `onDiscardChanges` clears both session fields whenever
a full session is active (`editIndex` set to a position inside the
collection and a snapshot present); in every other state — no `editIndex`,
no snapshot, or a stale out-of-range `editIndex` — it is a complete no-op
that leaves the whole state, any leftover snapshot included, unchanged. -/
theorem onDiscardChanges_session_semantics (s : VariablesEditView) :
    ((∃ k, s.editIndex = some k ∧ k < s.variableList.length) ∧
        s.originalVariableState ≠ none →
      (onDiscardChanges s).editIndex = none ∧
        (onDiscardChanges s).originalVariableState = none) ∧
    (s.editIndex = none ∨ s.originalVariableState = none ∨
        (∃ k, s.editIndex = some k ∧ s.variableList.length ≤ k) →
      onDiscardChanges s = s) := by
  constructor
  · rintro ⟨⟨k, hk, hlen⟩, hsnap⟩
    rcases ho : s.originalVariableState with _ | o
    · exact absurd ho hsnap
    · simp [onDiscardChanges, hk, ho, if_pos hlen]
  · rintro (h | h | ⟨k, hk, hlen⟩)
    · rcases ho : s.originalVariableState with _ | o <;>
        simp only [onDiscardChanges, h, ho]
    · rcases hk : s.editIndex with _ | k <;>
        simp only [onDiscardChanges, h, hk]
    · rcases ho : s.originalVariableState with _ | o
      · simp only [onDiscardChanges, hk, ho]
      · simp only [onDiscardChanges, hk, ho, if_neg (by omega :
          ¬ k < s.variableList.length)]

/-- Witness for C9 (amended): with a full session active both fields are
cleared. -/
theorem onDiscardChanges_session_semantics_witness :
    (onDiscardChanges sessionView).editIndex = none ∧
      (onDiscardChanges sessionView).originalVariableState = none :=
  (onDiscardChanges_session_semantics sessionView).1
    ⟨⟨0, rfl, by decide⟩, by decide⟩

/-- C10: the collection-mutating operations `onDelete`, `onDuplicated`
and `onOrderChanged` never touch the edit-session fields: `editIndex` and
the captured snapshot are returned unchanged — in particular a stored
`editIndex` is not re-validated or shifted when positions change. -/
theorem collection_ops_preserve_session (s : VariablesEditView)
    (n : String) (i j : Int) :
    (onDelete s n).1.editIndex = s.editIndex ∧
      (onDelete s n).1.originalVariableState = s.originalVariableState ∧
      (onDuplicated s n).1.editIndex = s.editIndex ∧
      (onDuplicated s n).1.originalVariableState =
        s.originalVariableState ∧
      (onOrderChanged s i j).1.editIndex = s.editIndex ∧
      (onOrderChanged s i j).1.originalVariableState =
        s.originalVariableState := by
  refine ⟨?_, ?_, ?_, ?_, ?_, ?_⟩
  · unfold onDelete; split <;> rfl
  · unfold onDelete; split <;> rfl
  · unfold onDuplicated; split <;> rfl
  · unfold onDuplicated; split <;> rfl
  · unfold onOrderChanged; split <;> rfl
  · unfold onOrderChanged; split <;> rfl

end VariablesEdit
